import Mathlib

set_option maxRecDepth 4000

/-!
# Bantay Presyo Pro — verification of the view-layer and pipeline claims

Shallow embedding of the price-parsing, statistics and view-building code of
the repository (`src/app/src/sections/*.tsx`), together with spec-modelled
definitions for the analytics pipeline (`pipeline/build_dashboard_data.py`,
which is not part of the provided sources).  Prices are modelled as rationals;
JavaScript `null` becomes `Option.none`.
-/

namespace BantayPresyo

open List (Sublist)

open scoped List

/-! ## Model of JavaScript number parsing (`parseFloat`) -/

/-- ASCII whitespace skipped by the `parseFloat` model. -/
def isSpaceChar (c : Char) : Bool :=
  c = ' ' || c = '\t' || c = '\n' || c = '\r' || c = '\x0b' || c = '\x0c'

/-- Decimal digit test. -/
def isDigitChar (c : Char) : Bool :=
  '0' ≤ c && c ≤ '9'

/-- Value of a digit string read most-significant first. -/
def digitsToNat (ds : List Char) : ℕ :=
  ds.foldl (fun a c => 10 * a + (c.toNat - 48)) 0

/-- Value of the digits after the decimal point. -/
def fracValue (ds : List Char) : ℚ :=
  (digitsToNat ds : ℚ) / (10 : ℚ) ^ ds.length

/-- Read an optional exponent part (`e`/`E`, optional sign, digits) at the head
of the input; returns the exponent and the unconsumed rest.  When no
well-formed exponent follows, nothing is consumed and the exponent is zero. -/
def parseExpPart (cs : List Char) : ℤ × List Char :=
  match cs with
  | [] => (0, [])
  | c :: rest =>
    if c = 'e' || c = 'E' then
      match rest with
      | '+' :: r2 =>
        let ds := r2.takeWhile isDigitChar
        if ds.isEmpty then (0, c :: rest)
        else ((digitsToNat ds : ℤ), r2.dropWhile isDigitChar)
      | '-' :: r2 =>
        let ds := r2.takeWhile isDigitChar
        if ds.isEmpty then (0, c :: rest)
        else (-(digitsToNat ds : ℤ), r2.dropWhile isDigitChar)
      | _ =>
        let ds := rest.takeWhile isDigitChar
        if ds.isEmpty then (0, c :: rest)
        else ((digitsToNat ds : ℤ), rest.dropWhile isDigitChar)
    else (0, c :: rest)

/-- Longest unsigned decimal literal at the head of the input: integer digits,
an optional point with fraction digits, and an optional exponent.  `none`
models `NaN` (no digits present). -/
def parseDecimalAt (cs : List Char) : Option (ℚ × List Char) :=
  let ip := cs.takeWhile isDigitChar
  let r1 := cs.dropWhile isDigitChar
  if r1.head? = some '.' then
    let r2 := r1.tail
    let fp := r2.takeWhile isDigitChar
    if ip.isEmpty && fp.isEmpty then none
    else
      let er := parseExpPart (r2.dropWhile isDigitChar)
      some (((digitsToNat ip : ℚ) + fracValue fp) * (10 : ℚ) ^ er.1, er.2)
  else
    if ip.isEmpty then none
    else
      let er := parseExpPart r1
      some ((digitsToNat ip : ℚ) * (10 : ℚ) ^ er.1, er.2)

/-- Signed decimal literal at the head of the input. -/
def parseSignedNum (cs : List Char) : Option (ℚ × List Char) :=
  match cs with
  | [] => none
  | c :: r =>
    if c = '+' then parseDecimalAt r
    else if c = '-' then (parseDecimalAt r).map (fun p => (-p.1, p.2))
    else parseDecimalAt (c :: r)

/-- Model of JavaScript `parseFloat` on a price cell: skip leading whitespace,
read the longest signed decimal literal, ignore any trailing garbage; `none`
models a `NaN` result. -/
def jsParseFloat (s : String) : Option ℚ :=
  (parseSignedNum (s.data.dropWhile isSpaceChar)).map Prod.fst

/-- A string that is exactly a signed decimal numeral, and its value: the
spec's "parse as a decimal number", demanding that the whole string is
consumed. -/
def decimalNumeral (s : String) : Option ℚ :=
  match parseSignedNum s.data with
  | some (q, []) => some q
  | _ => none

/-- Model of `raw.replace(/,/g, "")`. -/
def stripCommas (s : String) : String :=
  ⟨s.data.filter (fun c => c ≠ ',')⟩

/-- Function `parsePrice` from `src/app/src/sections/MarketComparison.tsx`:
`if (!raw || raw === "N/A") return null;`
`const n = parseFloat(raw.replace(/,/g, "")); return isNaN(n) ? null : n;` -/
def parsePrice (raw : String) : Option ℚ :=
  if raw = "" ∨ raw = "N/A" then none
  else jsParseFloat (stripCommas raw)

/-! ## Per-row price statistics (`getPriceStats`, MarketComparison.tsx) -/

/-- The record produced by `getPriceStats`. -/
structure PriceStats where
  min : ℚ
  max : ℚ
  avg : ℚ
  spread : ℚ
  count : ℕ
deriving DecidableEq, Repr

/-- Function `getPriceStats` from `src/app/src/sections/MarketComparison.tsx`: parse all
cells, drop the nulls, and when at least one number remains return min, max,
mean, and the min-max spread percent (`min > 0 ? ((max - min) / min) * 100 : 0`). -/
def getPriceStats (prices : List String) : Option PriceStats :=
  match prices.filterMap parsePrice with
  | [] => none
  | x :: xs =>
    let mn := xs.foldl Min.min x
    let mx := xs.foldl Max.max x
    let avg := (x :: xs).foldl (· + ·) 0 / ((x :: xs).length : ℚ)
    let spread := if 0 < mn then (mx - mn) / mn * 100 else 0
    some ⟨mn, mx, avg, spread, (x :: xs).length⟩

/-! ## Dashboard data model (`src/app/src/types`) -/

/-- The fields of a `DashboardItem` read by the verified view functions
(`7_day_change_pct` and `30_day_change_pct` are rendered as `change7d` and
`change30d`; `unit`, `latest_date`, `ma_7`, `ma_30`, `momentum` and `trend`
are carried by the JSON document but never read by them). -/
structure DashboardItem where
  region : String
  category : String
  commodity : String
  latest_price : ℚ
  change7d : Option ℚ
  change30d : Option ℚ
  volatility_score : String
  volatility_value : Option ℚ
deriving DecidableEq, Repr

/-- Model of JavaScript `hay.includes(needle)`. -/
def strIncludes (hay needle : String) : Bool :=
  decide (needle.data <:+: hay.data)

/-! ## Dashboard filtering (`useFilteredDashboard`, hooks/useData) -/

/-- The three dashboard filters; the empty string models an absent (falsy)
filter value, matching the JavaScript truthiness tests. -/
structure DashFilters where
  region : String
  category : String
  search : String
deriving DecidableEq, Repr

/-- Function `useFilteredDashboard` from `src/app/src/sections/CategoryOverview.tsx`
(`hooks/useData`): keep an item unless a set region filter excludes it, then
unless a set category filter excludes it; when a search string is set, keep it
exactly when the lowercased commodity or region contains the lowercased
search.  Locale-independent `toLowerCase` is modelled by `String.toLower`. -/
def useFilteredDashboard (dashboard : List DashboardItem) (f : DashFilters) :
    List DashboardItem :=
  dashboard.filter (fun item =>
    if f.region ≠ "" ∧ f.region ≠ "All Regions" ∧ item.region ≠ f.region then false
    else if f.category ≠ "" ∧ f.category ≠ "All Categories" ∧ item.category ≠ f.category then
      false
    else if f.search ≠ "" then
      strIncludes item.commodity.toLower f.search.toLower ||
        strIncludes item.region.toLower f.search.toLower
    else true)

/-! ## Per-category statistics (`useCategoryStats`, hooks/useData) -/

/-- One entry of the `useCategoryStats` record. -/
structure CatStats where
  count : ℕ
  avgPrice : ℚ
  avgChange7d : ℚ
  avgChange30d : ℚ
deriving DecidableEq, Repr

/-- Model of JavaScript `Math.round`: half-way cases round toward `+∞`. -/
def jsRound (q : ℚ) : ℤ := ⌊q + 1 / 2⌋

/-- Rounding to 2 decimal places: `Math.round(q * 100) / 100`. -/
def round2 (q : ℚ) : ℚ := (jsRound (q * 100) : ℚ) / 100

/-- Function `useCategoryStats` from `src/app/src/sections/CategoryOverview.tsx`, read
off at one category key `c`: the `forEach` accumulates, over the items of
category `c` only, the item count, the sum of `latest_price`, and the sums of
the non-null 7/30-day change percents (a null change adds nothing); each sum
is then divided by the count of all items of the category and rounded.  A
category with no items has no key in the record (`none`). -/
def useCategoryStats (dashboard : List DashboardItem) (c : String) : Option CatStats :=
  match dashboard.filter (fun d => d.category = c) with
  | [] => none
  | x :: xs =>
    let items := x :: xs
    some
      { count := items.length
        avgPrice := round2 ((items.map (fun d => d.latest_price)).sum / (items.length : ℚ))
        avgChange7d :=
          round2 ((items.map (fun d => d.change7d.getD 0)).sum / (items.length : ℚ))
        avgChange30d :=
          round2 ((items.map (fun d => d.change30d.getD 0)).sum / (items.length : ℚ)) }

/-! ## Volatility top lists (`VolatilityAnalysis.tsx`) -/

/-- Volatility with null read as zero, `d.volatility_value || 0`, as used by the
sort comparators. -/
def volOr0 (d : DashboardItem) : ℚ := d.volatility_value.getD 0

/-- The comparator `(b, a) => (b.volatility_value || 0) - (a.volatility_value || 0)`
as a weak order: `a` may stay before `b` iff the comparator is `≤ 0`. -/
def volDescLE (a b : DashboardItem) : Bool := decide (volOr0 b ≤ volOr0 a)

/-- Ascending counterpart used by `leastVolatile`. -/
def volAscLE (a b : DashboardItem) : Bool := decide (volOr0 a ≤ volOr0 b)

/-- The stable descending sort of the non-null-volatility items; JavaScript
`Array.prototype.sort` is required to be stable, which `List.mergeSort`
models exactly. -/
def volSortDesc (dashboard : List DashboardItem) : List DashboardItem :=
  (dashboard.filter (fun d => d.volatility_value.isSome)).mergeSort volDescLE

/-- Ascending counterpart. -/
def volSortAsc (dashboard : List DashboardItem) : List DashboardItem :=
  (dashboard.filter (fun d => d.volatility_value.isSome)).mergeSort volAscLE

/-- Function `mostVolatile` from `src/app/src/sections/VolatilityAnalysis.tsx`:
filter out null volatility, sort descending by volatility, take 10. -/
def mostVolatile (dashboard : List DashboardItem) : List DashboardItem :=
  (volSortDesc dashboard).take 10

/-- Function `leastVolatile` from `src/app/src/sections/VolatilityAnalysis.tsx`. -/
def leastVolatile (dashboard : List DashboardItem) : List DashboardItem :=
  (volSortAsc dashboard).take 10

/-! ## Market comparison view (`filteredAndSortedCommodities`) -/

/-- One commodity row of the market-comparison matrix. -/
structure MarketCommodity where
  commodity : String
  specification : String
  prices : List String
deriving DecidableEq, Repr

/-- The view settings of the market-comparison section. -/
structure MarketFilters where
  searchQuery : String
  sortBySpread : Bool
  showTopSpread : Bool
deriving DecidableEq, Repr

/-- Spread with null stats read as zero: `getPriceStats(c.prices)?.spread ?? 0`. -/
def spreadOr0 (c : MarketCommodity) : ℚ :=
  match getPriceStats c.prices with
  | some st => st.spread
  | none => 0

/-- Spread comparator of the "Highest Price Spread" sort, as a weak order. -/
def spreadDescLE (a b : MarketCommodity) : Bool := decide (spreadOr0 b ≤ spreadOr0 a)

/-- Name comparator of the A-Z sort; `localeCompare` is modelled by the
code-point order on strings. -/
def nameLE (a b : MarketCommodity) : Bool := decide (a.commodity ≤ b.commodity)

/-- Function `filteredAndSortedCommodities` from
`src/app/src/sections/MarketComparison.tsx`: search filter on commodity or
specification (when the query is non-empty), optional high-spread filter
(`spread >= 10`), then a stable sort either descending by spread or
ascending by commodity name. -/
def filteredAndSortedCommodities (commodities : List MarketCommodity)
    (f : MarketFilters) : List MarketCommodity :=
  let items1 :=
    if f.searchQuery = "" then commodities
    else
      commodities.filter (fun it =>
        strIncludes it.commodity.toLower f.searchQuery.toLower ||
          strIncludes it.specification.toLower f.searchQuery.toLower)
  let items2 :=
    if f.showTopSpread then
      items1.filter (fun it =>
        match getPriceStats it.prices with
        | some st => decide (10 ≤ st.spread)
        | none => false)
    else items1
  if f.sortBySpread then items2.mergeSort spreadDescLE
  else items2.mergeSort nameLE

/-- A two-item sample dashboard (one null 7-day change) used to witness the
per-category statistics. -/
def sampleDashboard : List DashboardItem :=
  [⟨"NCR", "Rice", "r1", 10, some 5, none, "Low", none⟩,
   ⟨"NCR", "Rice", "r2", 20, none, none, "Low", none⟩]

/-! ## Spec-modelled pipeline analytics

The time-series aggregator and the cross-region view builder live in
`pipeline/build_dashboard_data.py`, which is not among the provided sources;
the definitions below are modelled from the spec (sections 3, 4.3, 4.4, 8). -/

/-- A dated observation of one series; `day` is the calendar date as a day
number, `price` is `None` for a null price. -/
structure Obs where
  day : ℤ
  price : Option ℚ
deriving DecidableEq, Repr

/-- Modelled from the spec: the volatility bucket of the coefficient of
variation, in percent, computed by the missing pipeline
(`pipeline/build_dashboard_data.py`): `<2% → Low, 2–5% → Moderate,
5–10% → High, >10% → Very High`, with the boundary contract of spec section 8
(2.0 → Moderate, 5.0 → High, 10.0 → Very High). -/
def volatilityScoreOfCV (cvPct : ℚ) : String :=
  if cvPct < 2 then "Low"
  else if cvPct < 5 then "Moderate"
  else if cvPct < 10 then "High"
  else "Very High"

/-- The latest priced observation of a series (date and price), scanning in
date order so the last non-null one wins. -/
def lastPriced (series : List Obs) : Option (ℤ × ℚ) :=
  series.foldl
    (fun acc o =>
      match o.price with
      | some p => some (o.day, p)
      | none => acc)
    none

/-- The observation carried by the series for one exact calendar date. -/
def findOnDay (series : List Obs) (d : ℤ) : Option Obs :=
  series.find? (fun o => o.day = d)

/-- Modelled from the spec: percent change over `n` days, computed by the
missing pipeline (`pipeline/build_dashboard_data.py`): it needs the latest
priced observation and a priced observation dated exactly `n` days earlier;
`none` when that dated observation is missing or null, or when the earlier
price is zero.  No nearest-neighbour date is substituted. -/
def changeNdPct (series : List Obs) (n : ℤ) : Option ℚ :=
  match lastPriced series with
  | none => none
  | some (d, pLatest) =>
    match findOnDay series (d - n) with
    | none => none
    | some o =>
      match o.price with
      | none => none
      | some pPrev => if pPrev = 0 then none else some ((pLatest - pPrev) / pPrev * 100)

/-- Modelled from the spec: moving average over window `w`, computed by the
missing pipeline (`pipeline/build_dashboard_data.py`): the mean of the last
`w` observations with a non-null price, walking backward from the latest
date — over however many exist when fewer than `w` do, and `none` only when
none exist. -/
def movingAvg (series : List Obs) (w : ℕ) : Option ℚ :=
  let priced := series.filterMap (fun o => o.price)
  let window := priced.drop (priced.length - w)
  if window.isEmpty then none
  else some (window.sum / (window.length : ℚ))

/-- One region's entry of the cross-region comparison for one commodity. -/
structure RegionPrice where
  region : String
  price : ℚ
deriving DecidableEq, Repr

/-- Modelled from the spec: the order of the cross-region ranking built by the
missing pipeline (`pipeline/build_dashboard_data.py`): ascending by latest
price, ties broken by region name in lexical order. -/
def regionRankLE (a b : RegionPrice) : Prop :=
  a.price < b.price ∨ (a.price = b.price ∧ a.region ≤ b.region)

instance : DecidableRel regionRankLE := fun a b => by
  unfold regionRankLE; infer_instance

instance : IsTotal RegionPrice regionRankLE where
  total a b := by
    unfold regionRankLE
    rcases lt_trichotomy a.price b.price with h | h | h
    · exact Or.inl (Or.inl h)
    · rcases le_total a.region b.region with hr | hr
      · exact Or.inl (Or.inr ⟨h, hr⟩)
      · exact Or.inr (Or.inr ⟨h.symm, hr⟩)
    · exact Or.inr (Or.inl h)

instance : IsTrans RegionPrice regionRankLE where
  trans a b c hab hbc := by
    unfold regionRankLE at *
    rcases hab with h1 | ⟨e1, r1⟩
    · rcases hbc with h2 | ⟨e2, r2⟩
      · exact Or.inl (h1.trans h2)
      · exact Or.inl (e2 ▸ h1)
    · rcases hbc with h2 | ⟨e2, r2⟩
      · exact Or.inl (e1 ▸ h2)
      · exact Or.inr ⟨e1.trans e2, r1.trans r2⟩

/-- Modelled from the spec: the ranked regional list of the cross-region
comparison — the regions carrying a commodity sorted by `regionRankLE`. -/
def rankRegions (entries : List RegionPrice) : List RegionPrice :=
  entries.insertionSort regionRankLE

/-! ## Theorems -/

/-- C5: At the volatility bucket boundaries, a coefficient of variation of
exactly 2.0% maps to volatility score "Moderate" (not "Low"), a CV of exactly
5.0% maps to "High", and a CV of exactly 10.0% maps to "Very High". -/
theorem volatilityScore_boundaries :
    volatilityScoreOfCV 2 = "Moderate" ∧ volatilityScoreOfCV 2 ≠ "Low" ∧
      volatilityScoreOfCV 5 = "High" ∧ volatilityScoreOfCV 10 = "Very High" := by
  refine ⟨?_, ?_, ?_, ?_⟩ <;> with_unfolding_all decide

/-- C9: for every dashboard list and every choice of filters, the dashboard
filter returns an order-preserving sublist of its input, and with region
"All Regions", category "All Categories" and an empty search string it
returns the input unchanged. -/
theorem useFilteredDashboard_sublist_id :
    (∀ (dashboard : List DashboardItem) (f : DashFilters),
        useFilteredDashboard dashboard f <+ dashboard) ∧
      ∀ dashboard : List DashboardItem,
        useFilteredDashboard dashboard ⟨"All Regions", "All Categories", ""⟩ = dashboard := by
  constructor
  · intro dashboard f
    exact List.filter_sublist dashboard
  · intro dashboard
    apply List.filter_eq_self.mpr
    intro a _
    simp

/-- C8: the view-building transforms are deterministic — identical dashboard
input and filters, or identical market-comparison input and settings, produce
identical output lists. -/
theorem viewTransforms_deterministic :
    ∀ (d1 d2 : List DashboardItem) (f1 f2 : DashFilters)
      (c1 c2 : List MarketCommodity) (g1 g2 : MarketFilters),
      d1 = d2 → f1 = f2 → c1 = c2 → g1 = g2 →
      useFilteredDashboard d1 f1 = useFilteredDashboard d2 f2 ∧
        filteredAndSortedCommodities c1 g1 = filteredAndSortedCommodities c2 g2 := by
  intro d1 d2 f1 f2 c1 c2 g1 g2 hd hf hc hg
  subst hd; subst hf; subst hc; subst hg
  exact ⟨rfl, rfl⟩

/-- Witness for C8 at concrete inputs. -/
theorem viewTransforms_deterministic_witness :
    useFilteredDashboard [] ⟨"", "", ""⟩ = useFilteredDashboard [] ⟨"", "", ""⟩ ∧
      filteredAndSortedCommodities [⟨"rice", "well milled", ["52", "N/A"]⟩]
          ⟨"", false, false⟩ =
        filteredAndSortedCommodities [⟨"rice", "well milled", ["52", "N/A"]⟩]
          ⟨"", false, false⟩ :=
  viewTransforms_deterministic [] [] ⟨"", "", ""⟩ ⟨"", "", ""⟩
    [⟨"rice", "well milled", ["52", "N/A"]⟩] [⟨"rice", "well milled", ["52", "N/A"]⟩]
    ⟨"", false, false⟩ ⟨"", false, false⟩ rfl rfl rfl rfl

/-- A character that opens no decimal literal and is not a point makes
`parseDecimalAt` fail. -/
theorem parseDecimalAt_none_of_bad_head {c : Char} (r : List Char)
    (hd : isDigitChar c = false) (hdot : c ≠ '.') :
    parseDecimalAt (c :: r) = none := by
  unfold parseDecimalAt
  simp [List.takeWhile_cons, List.dropWhile_cons, hd, hdot]

/-- When the signed-literal read succeeds, the input starts with no
whitespace. -/
theorem parseSignedNum_head_no_space {cs : List Char} {x : ℚ × List Char}
    (h : parseSignedNum cs = some x) : cs.dropWhile isSpaceChar = cs := by
  cases cs with
  | nil => rfl
  | cons c r =>
    rw [List.dropWhile_cons]
    suffices hs : isSpaceChar c = false by simp [hs]
    by_cases h1 : c = '+'
    · subst h1; rfl
    · by_cases h2 : c = '-'
      · subst h2; rfl
      · rw [parseSignedNum, if_neg h1, if_neg h2] at h
        by_contra hsp
        rw [Bool.not_eq_false] at hsp
        simp only [isSpaceChar, Bool.or_eq_true, decide_eq_true_eq] at hsp
        rcases hsp with ((((rfl | rfl) | rfl) | rfl) | rfl) | rfl <;>
          rw [parseDecimalAt_none_of_bad_head r (by decide) (by decide)] at h <;>
            exact Option.noConfusion h

/-- A full decimal numeral parses the same under the `parseFloat` model. -/
theorem jsParseFloat_of_decimalNumeral {t : String} {q : ℚ}
    (h : decimalNumeral t = some q) : jsParseFloat t = some q := by
  rw [decimalNumeral] at h
  cases hps : parseSignedNum t.data with
  | none => rw [hps] at h; exact absurd h (by simp)
  | some pr =>
    obtain ⟨v, rest⟩ := pr
    rw [hps] at h
    cases rest with
    | nil =>
      simp only [Option.some.injEq] at h
      rw [jsParseFloat, parseSignedNum_head_no_space hps, hps]
      simpa using h
    | cons a l => exact absurd h (by simp)

/-- C1: the price parser returns a null price exactly when the cell is empty,
is the "N/A" marker, or has no parsable number after comma removal; a cell
that is exactly a decimal numeral (commas removed) yields its decimal value;
in particular "0" parses to 0 (never null) and "N/A" parses to null (never
0). -/
theorem parsePrice_spec :
    (∀ s : String,
        (parsePrice s = none ↔ s = "" ∨ s = "N/A" ∨ jsParseFloat (stripCommas s) = none) ∧
          ∀ q : ℚ, decimalNumeral (stripCommas s) = some q → s ≠ "" → s ≠ "N/A" →
            parsePrice s = some q) ∧
      parsePrice "0" = some 0 ∧ parsePrice "N/A" = none := by
  refine ⟨fun s => ⟨?_, ?_⟩, by with_unfolding_all decide, by with_unfolding_all decide⟩
  · by_cases h : s = "" ∨ s = "N/A"
    · rw [parsePrice, if_pos h]
      rcases h with h | h <;> simp [h]
    · rw [parsePrice, if_neg h]
      push_neg at h
      simp [h.1, h.2]
  · intro q hq hne hna
    rw [parsePrice, if_neg (by tauto)]
    exact jsParseFloat_of_decimalNumeral hq

/-- Witness for C1: a cell with a comma thousands separator parses to its
decimal value. -/
theorem parsePrice_spec_witness : parsePrice "1,234" = some 1234 :=
  (parsePrice_spec.1 "1,234").2 1234 (by with_unfolding_all decide)
    (by decide) (by decide)

/-- A left fold of `min` lands on a member of `x :: xs`. -/
theorem foldl_min_mem (x : ℚ) (xs : List ℚ) : xs.foldl Min.min x ∈ x :: xs := by
  induction xs generalizing x with
  | nil => simp
  | cons a l ih =>
    rw [List.foldl_cons]
    rcases List.mem_cons.mp (ih (Min.min x a)) with h | h
    · rcases min_choice x a with hm | hm
      · rw [h, hm]; exact List.mem_cons_self _ _
      · rw [h, hm]; exact List.mem_cons_of_mem _ (List.mem_cons_self _ _)
    · exact List.mem_cons_of_mem _ (List.mem_cons_of_mem _ h)

/-- A left fold of `min` is a lower bound of `x :: xs`. -/
theorem foldl_min_le (x : ℚ) (xs : List ℚ) : ∀ y ∈ x :: xs, xs.foldl Min.min x ≤ y := by
  induction xs generalizing x with
  | nil => intro y hy; rw [List.mem_singleton] at hy; simp [hy]
  | cons a l ih =>
    intro y hy
    rw [List.foldl_cons]
    rcases List.mem_cons.mp hy with rfl | hy'
    · exact le_trans (ih (Min.min y a) _ (List.mem_cons_self _ _)) (min_le_left y a)
    · rcases List.mem_cons.mp hy' with rfl | h
      · exact le_trans (ih (Min.min x y) _ (List.mem_cons_self _ _)) (min_le_right x y)
      · exact ih (Min.min x a) y (List.mem_cons_of_mem _ h)

/-- A left fold of `max` lands on a member of `x :: xs`. -/
theorem foldl_max_mem (x : ℚ) (xs : List ℚ) : xs.foldl Max.max x ∈ x :: xs := by
  induction xs generalizing x with
  | nil => simp
  | cons a l ih =>
    rw [List.foldl_cons]
    rcases List.mem_cons.mp (ih (Max.max x a)) with h | h
    · rcases max_choice x a with hm | hm
      · rw [h, hm]; exact List.mem_cons_self _ _
      · rw [h, hm]; exact List.mem_cons_of_mem _ (List.mem_cons_self _ _)
    · exact List.mem_cons_of_mem _ (List.mem_cons_of_mem _ h)

/-- A left fold of `max` is an upper bound of `x :: xs`. -/
theorem foldl_max_ge (x : ℚ) (xs : List ℚ) : ∀ y ∈ x :: xs, y ≤ xs.foldl Max.max x := by
  induction xs generalizing x with
  | nil => intro y hy; rw [List.mem_singleton] at hy; simp [hy]
  | cons a l ih =>
    intro y hy
    rw [List.foldl_cons]
    rcases List.mem_cons.mp hy with rfl | hy'
    · exact le_trans (le_max_left y a) (ih (Max.max y a) _ (List.mem_cons_self _ _))
    · rcases List.mem_cons.mp hy' with rfl | h
      · exact le_trans (le_max_right x y) (ih (Max.max x y) _ (List.mem_cons_self _ _))
      · exact ih (Max.max x a) y (List.mem_cons_of_mem _ h)

/-- The JS fold `reduce((a, b) => a + b, 0)` is the list sum. -/
theorem foldl_add_eq_sum (x : ℚ) (l : List ℚ) : l.foldl (· + ·) x = x + l.sum := by
  induction l generalizing x with
  | nil => simp
  | cons a t ih => rw [List.foldl_cons, List.sum_cons, ih (x + a), add_assoc]

/-- C4: the per-row price statistics are null exactly when no cell parses;
otherwise min, max and mean are taken over the parsed numbers, and the spread
percent is `(max - min) / min * 100` when `min > 0` and `0` when `min = 0`,
so the ratio never divides by zero. -/
theorem getPriceStats_spec :
    ∀ prices : List String,
      (getPriceStats prices = none ↔ prices.filterMap parsePrice = []) ∧
        ∀ st, getPriceStats prices = some st →
          st.count = (prices.filterMap parsePrice).length ∧
            st.min ∈ prices.filterMap parsePrice ∧
            (∀ y ∈ prices.filterMap parsePrice, st.min ≤ y) ∧
            st.max ∈ prices.filterMap parsePrice ∧
            (∀ y ∈ prices.filterMap parsePrice, y ≤ st.max) ∧
            st.avg =
              (prices.filterMap parsePrice).sum / ((prices.filterMap parsePrice).length : ℚ) ∧
            (0 < st.min → st.spread = (st.max - st.min) / st.min * 100) ∧
            (st.min = 0 → st.spread = 0) := by
  intro prices
  cases hn : prices.filterMap parsePrice with
  | nil =>
    constructor
    · simp [getPriceStats, hn]
    · intro st hst
      rw [getPriceStats, hn] at hst
      exact absurd hst (by simp)
  | cons x xs =>
    constructor
    · rw [getPriceStats, hn]; simp
    · intro st hst
      rw [getPriceStats, hn] at hst
      simp only [Option.some.injEq] at hst
      subst hst
      refine ⟨by simp, foldl_min_mem x xs, foldl_min_le x xs, foldl_max_mem x xs,
        foldl_max_ge x xs, ?_, ?_, ?_⟩
      · show (x :: xs).foldl (· + ·) 0 / ((x :: xs).length : ℚ) = _
        rw [foldl_add_eq_sum, zero_add]
      · intro hpos
        show (if 0 < xs.foldl Min.min x then _ else _) = _
        rw [if_pos hpos]
      · intro hzero
        show (if 0 < xs.foldl Min.min x then _ else _) = _
        have hz : xs.foldl Min.min x = 0 := hzero
        rw [if_neg (by rw [hz]; exact lt_irrefl 0)]

/-- Witness for C4 at the cells ["10", "N/A", "20"]. -/
theorem getPriceStats_spec_witness :
    getPriceStats ["10", "N/A", "20"] = some ⟨10, 20, 15, 100, 2⟩ ∧
      ((0:ℚ) < 10 → (100:ℚ) = (20 - 10) / 10 * 100) := by
  have hst : getPriceStats ["10", "N/A", "20"] = some ⟨10, 20, 15, 100, 2⟩ := by
    with_unfolding_all decide
  exact ⟨hst, fun hpos =>
    ((getPriceStats_spec ["10", "N/A", "20"]).2 ⟨10, 20, 15, 100, 2⟩ hst).2.2.2.2.2.2.1 hpos⟩

/-- Nulls add nothing to the accumulated change sums: summing the non-null
values equals summing with nulls read as 0. -/
theorem sum_filterMap_getD {α : Type _} (f : α → Option ℚ) (l : List α) :
    (l.filterMap f).sum = (l.map (fun x => (f x).getD 0)).sum := by
  induction l with
  | nil => simp
  | cons a t ih =>
    cases hf : f a with
    | none => simp [List.filterMap_cons, hf, ih]
    | some v => simp [List.filterMap_cons, hf, ih]

/-- C10: per-category statistics — `avgChange7d`/`avgChange30d` equal the sum
of the non-null change percentages divided by the count of all items of the
category (nulls count in the denominator, contribute zero to the numerator),
rounded to 2 decimals; `avgPrice` is the rounded mean of `latest_price`. -/
theorem useCategoryStats_spec :
    ∀ (dashboard : List DashboardItem) (c : String),
      (useCategoryStats dashboard c = none ↔
        dashboard.filter (fun d => d.category = c) = []) ∧
        ∀ st, useCategoryStats dashboard c = some st →
          st.count = (dashboard.filter (fun d => d.category = c)).length ∧
            st.avgPrice = round2
              (((dashboard.filter (fun d => d.category = c)).map
                  (fun d => d.latest_price)).sum /
                ((dashboard.filter (fun d => d.category = c)).length : ℚ)) ∧
            st.avgChange7d = round2
              (((dashboard.filter (fun d => d.category = c)).filterMap
                  (fun d => d.change7d)).sum /
                ((dashboard.filter (fun d => d.category = c)).length : ℚ)) ∧
            st.avgChange30d = round2
              (((dashboard.filter (fun d => d.category = c)).filterMap
                  (fun d => d.change30d)).sum /
                ((dashboard.filter (fun d => d.category = c)).length : ℚ)) := by
  intro dashboard c
  cases hfil : dashboard.filter (fun d => d.category = c) with
  | nil =>
    constructor
    · simp [useCategoryStats, hfil]
    · intro st hst
      rw [useCategoryStats, hfil] at hst
      exact absurd hst (by simp)
  | cons x xs =>
    constructor
    · rw [useCategoryStats, hfil]; simp
    · intro st hst
      rw [useCategoryStats, hfil] at hst
      simp only [Option.some.injEq] at hst
      subst hst
      refine ⟨rfl, rfl, ?_, ?_⟩
      · show round2 _ = round2 _
        rw [sum_filterMap_getD (fun d => d.change7d) (x :: xs)]
      · show round2 _ = round2 _
        rw [sum_filterMap_getD (fun d => d.change30d) (x :: xs)]

set_option maxHeartbeats 1000000 in
/-- Witness for C10 on a two-item Rice category, one change null. -/
theorem useCategoryStats_spec_witness :
    useCategoryStats sampleDashboard "Rice" = some ⟨2, 15, 5 / 2, 0⟩ ∧
      (⟨2, 15, 5 / 2, 0⟩ : CatStats).avgChange7d = round2
        (((sampleDashboard.filter (fun d => d.category = "Rice")).filterMap
            (fun d => d.change7d)).sum /
          ((sampleDashboard.filter (fun d => d.category = "Rice")).length : ℚ)) := by
  have hst : useCategoryStats sampleDashboard "Rice" = some ⟨2, 15, 5 / 2, 0⟩ := by
    with_unfolding_all decide
  exact ⟨hst,
    ((useCategoryStats_spec sampleDashboard "Rice").2 ⟨2, 15, 5 / 2, 0⟩ hst).2.2.1⟩

/-- Transitivity of the descending volatility comparator. -/
theorem volDescLE_trans : ∀ a b c, volDescLE a b → volDescLE b c → volDescLE a c := by
  intro a b c hab hbc
  simp only [volDescLE, decide_eq_true_eq] at *
  exact le_trans hbc hab

/-- Totality of the descending volatility comparator. -/
theorem volDescLE_total : ∀ a b, volDescLE a b || volDescLE b a := by
  intro a b
  simp only [volDescLE, Bool.or_eq_true, decide_eq_true_eq]
  exact le_total (volOr0 b) (volOr0 a)

/-- Transitivity of the ascending volatility comparator. -/
theorem volAscLE_trans : ∀ a b c, volAscLE a b → volAscLE b c → volAscLE a c := by
  intro a b c hab hbc
  simp only [volAscLE, decide_eq_true_eq] at *
  exact le_trans hab hbc

/-- Totality of the ascending volatility comparator. -/
theorem volAscLE_total : ∀ a b, volAscLE a b || volAscLE b a := by
  intro a b
  simp only [volAscLE, Bool.or_eq_true, decide_eq_true_eq]
  exact le_total (volOr0 a) (volOr0 b)

/-- C2: the most-volatile and least-volatile top lists contain only items with
non-null `volatility_value`, have at most 10 items, are sorted descending
(resp. ascending) by volatility value, and break ties between equal values by
stable input order: a tied pair in input order stays in that order in the
stable-sorted list the top-10 list is cut from. -/
theorem mostLeastVolatile_spec :
    ∀ dashboard : List DashboardItem,
      (∀ x ∈ mostVolatile dashboard, x.volatility_value.isSome) ∧
        (mostVolatile dashboard).length ≤ 10 ∧
        (mostVolatile dashboard).Pairwise (fun a b => volOr0 b ≤ volOr0 a) ∧
        mostVolatile dashboard = (volSortDesc dashboard).take 10 ∧
        (∀ a b : DashboardItem, volOr0 a = volOr0 b →
          a.volatility_value.isSome → b.volatility_value.isSome →
          [a, b] <+ dashboard → [a, b] <+ volSortDesc dashboard) ∧
        (∀ x ∈ leastVolatile dashboard, x.volatility_value.isSome) ∧
        (leastVolatile dashboard).length ≤ 10 ∧
        (leastVolatile dashboard).Pairwise (fun a b => volOr0 a ≤ volOr0 b) ∧
        leastVolatile dashboard = (volSortAsc dashboard).take 10 ∧
        (∀ a b : DashboardItem, volOr0 a = volOr0 b →
          a.volatility_value.isSome → b.volatility_value.isSome →
          [a, b] <+ dashboard → [a, b] <+ volSortAsc dashboard) := by
  intro dashboard
  refine ⟨?_, ?_, ?_, rfl, ?_, ?_, ?_, ?_, rfl, ?_⟩
  · intro x hx
    have hx1 : x ∈ volSortDesc dashboard := List.mem_of_mem_take hx
    have hx2 : x ∈ dashboard.filter (fun d => d.volatility_value.isSome) :=
      List.mem_mergeSort.mp hx1
    exact (List.mem_filter.mp hx2).2
  · exact List.length_take_le 10 _
  · have hs : (volSortDesc dashboard).Pairwise (fun a b => volDescLE a b) :=
      List.sorted_mergeSort volDescLE_trans volDescLE_total _
    have hs2 := List.Pairwise.sublist (List.take_sublist 10 (volSortDesc dashboard)) hs
    exact hs2.imp (fun h => by simpa [volDescLE, decide_eq_true_eq] using h)
  · intro a b heq ha hb hsub
    apply List.pair_sublist_mergeSort volDescLE_trans volDescLE_total
    · simp [volDescLE, heq]
    · have := hsub.filter (fun d => d.volatility_value.isSome)
      simpa [List.filter_cons, ha, hb] using this
  · intro x hx
    have hx1 : x ∈ volSortAsc dashboard := List.mem_of_mem_take hx
    have hx2 : x ∈ dashboard.filter (fun d => d.volatility_value.isSome) :=
      List.mem_mergeSort.mp hx1
    exact (List.mem_filter.mp hx2).2
  · exact List.length_take_le 10 _
  · have hs : (volSortAsc dashboard).Pairwise (fun a b => volAscLE a b) :=
      List.sorted_mergeSort volAscLE_trans volAscLE_total _
    have hs2 := List.Pairwise.sublist (List.take_sublist 10 (volSortAsc dashboard)) hs
    exact hs2.imp (fun h => by simpa [volAscLE, decide_eq_true_eq] using h)
  · intro a b heq ha hb hsub
    apply List.pair_sublist_mergeSort volAscLE_trans volAscLE_total
    · simp [volAscLE, heq]
    · have := hsub.filter (fun d => d.volatility_value.isSome)
      simpa [List.filter_cons, ha, hb] using this

/-- Witness for C2: a tied pair keeps its input order in the stable sorted
lists. -/
theorem mostLeastVolatile_spec_witness :
    [(⟨"NCR", "Rice", "r1", 10, some 5, none, "Low", some 5⟩ : DashboardItem),
     ⟨"CAR", "Rice", "r2", 20, none, none, "Low", some 5⟩] <+
      volSortDesc
        [⟨"NCR", "Rice", "r1", 10, some 5, none, "Low", some 5⟩,
         ⟨"CAR", "Rice", "r2", 20, none, none, "Low", some 5⟩] :=
  (mostLeastVolatile_spec
      [⟨"NCR", "Rice", "r1", 10, some 5, none, "Low", some 5⟩,
       ⟨"CAR", "Rice", "r2", 20, none, none, "Low", some 5⟩]).2.2.2.2.1
    ⟨"NCR", "Rice", "r1", 10, some 5, none, "Low", some 5⟩
    ⟨"CAR", "Rice", "r2", 20, none, none, "Low", some 5⟩
    (by with_unfolding_all decide) (by decide) (by decide) (List.Sublist.refl _)

/-- The head of a pairwise-related list is related to every member, given
reflexivity. -/
theorem pairwise_head?_all {α : Type _} {R : α → α → Prop} (hrefl : ∀ a, R a a)
    {l : List α} (hp : l.Pairwise R) {y : α} (hy : l.head? = some y) :
    ∀ x ∈ l, R y x := by
  cases l with
  | nil => exact absurd hy (by simp)
  | cons a t =>
    obtain rfl : a = y := by simpa using hy
    intro x hx
    rcases List.mem_cons.mp hx with rfl | hx'
    · exact hrefl x
    · exact (List.pairwise_cons.mp hp).1 x hx'

/-- The ranking order implies the price order. -/
theorem regionRankLE_price {a b : RegionPrice} (h : regionRankLE a b) :
    a.price ≤ b.price := by
  rcases h with h | ⟨h, _⟩
  · exact le_of_lt h
  · exact le_of_eq h

/-- C3: the cross-region list is ranked ascending by latest price with ties
broken by region name in lexical order; the regions A(50), B(40), C(40) rank
as [B, C, A]; the first entry is cheapest and the last entry is most
expensive. -/
theorem rankRegions_spec :
    (∀ entries : List RegionPrice,
        (rankRegions entries).Pairwise regionRankLE ∧
          rankRegions entries ~ entries ∧
          (∀ y, (rankRegions entries).head? = some y →
            ∀ x ∈ rankRegions entries, y.price ≤ x.price) ∧
          ∀ y, (rankRegions entries).getLast? = some y →
            ∀ x ∈ rankRegions entries, x.price ≤ y.price) ∧
      rankRegions [⟨"A", 50⟩, ⟨"B", 40⟩, ⟨"C", 40⟩] =
        [⟨"B", 40⟩, ⟨"C", 40⟩, ⟨"A", 50⟩] := by
  constructor
  · intro entries
    have hp : (rankRegions entries).Pairwise regionRankLE :=
      List.sorted_insertionSort regionRankLE entries
    refine ⟨hp, List.perm_insertionSort regionRankLE entries, ?_, ?_⟩
    · intro y hy x hx
      exact pairwise_head?_all (R := fun a b : RegionPrice => a.price ≤ b.price)
        (fun a => le_refl a.price) (hp.imp (fun h => regionRankLE_price h)) hy x hx
    · intro y hy x hx
      have hrev : (rankRegions entries).reverse.Pairwise
          (fun a b : RegionPrice => b.price ≤ a.price) :=
        (List.pairwise_reverse.mpr hp).imp (fun h => regionRankLE_price h)
      have hyrev : (rankRegions entries).reverse.head? = some y := by
        rw [List.head?_reverse]; exact hy
      exact pairwise_head?_all (R := fun a b : RegionPrice => b.price ≤ a.price)
        (fun a => le_refl a.price) hrev hyrev x (List.mem_reverse.mpr hx)
  · with_unfolding_all decide

/-- Witness for C3: in the spec's example the head of the ranking (B at 40)
is no more expensive than A at 50. -/
theorem rankRegions_spec_witness :
    (⟨"B", (40:ℚ)⟩ : RegionPrice).price ≤ (⟨"A", (50:ℚ)⟩ : RegionPrice).price :=
  (rankRegions_spec.1 [⟨"A", 50⟩, ⟨"B", 40⟩, ⟨"C", 40⟩]).2.2.1 ⟨"B", 40⟩
    (by with_unfolding_all decide) ⟨"A", 50⟩ (by with_unfolding_all decide)

/-- C6: the N-day percent change is `none` exactly when the observation dated
exactly N days before the date of the latest priced observation is missing,
null-priced, or zero-priced; no nearest-neighbour date is substituted: a
series with price 100 at day 0, nothing at day -7, and 98 at day -6 yields
`none` for the 7-day change. -/
theorem changeNdPct_spec :
    (∀ (series : List Obs) (n : ℤ) (d : ℤ) (p : ℚ), lastPriced series = some (d, p) →
        (changeNdPct series n = none ↔
            findOnDay series (d - n) = none ∨
              ∃ o, findOnDay series (d - n) = some o ∧
                (o.price = none ∨ o.price = some 0)) ∧
          ∀ o q, findOnDay series (d - n) = some o → o.price = some q → q ≠ 0 →
            changeNdPct series n = some ((p - q) / q * 100)) ∧
      changeNdPct [⟨-6, some 98⟩, ⟨0, some 100⟩] 7 = none := by
  constructor
  · intro series n d p h
    constructor
    · simp only [changeNdPct, h]
      cases hf : findOnDay series (d - n) with
      | none => simp [hf]
      | some o =>
        simp only [hf]
        cases ho : o.price with
        | none => simp [ho]
        | some q =>
          simp only [ho]
          by_cases hq : q = 0
          · subst hq
            rw [if_pos rfl]
            exact iff_of_true rfl (Or.inr ⟨o, rfl, Or.inr ho⟩)
          · rw [if_neg hq]
            refine iff_of_false (by simp) ?_
            rintro (hbad | ⟨o', ho', hbad | hbad⟩)
            · exact Option.noConfusion hbad
            · obtain rfl : o = o' := by simpa using ho'
              rw [ho] at hbad
              exact Option.noConfusion hbad
            · obtain rfl : o = o' := by simpa using ho'
              rw [ho] at hbad
              exact hq (by simpa using hbad)
    · intro o q hf hq hqz
      simp only [changeNdPct, h, hf, hq, if_neg hqz]
  · with_unfolding_all decide

/-- Witness for C6: a series with prices at day 0 and day 7 yields the exact
7-day change. -/
theorem changeNdPct_spec_witness :
    changeNdPct [⟨0, some 50⟩, ⟨7, some 100⟩] 7 = some 100 := by
  have h := (changeNdPct_spec.1 [⟨0, some 50⟩, ⟨7, some 100⟩] 7 7 100
    (by with_unfolding_all decide)).2 ⟨0, some 50⟩ 50
    (by with_unfolding_all decide) rfl (by with_unfolding_all decide)
  exact h.trans (by with_unfolding_all decide)

/-- C7: the moving average over window `w` is `none` exactly when the series
has no priced observation; with fewer than `w` priced observations it is the
mean of however many exist; with at least `w` it is the mean of the trailing
`w`; the series `[10, None, 12]` gives `ma_3 = 11`. -/
theorem movingAvg_spec :
    (∀ (series : List Obs) (w : ℕ), 0 < w →
        (movingAvg series w = none ↔ series.filterMap (fun o => o.price) = []) ∧
          ((series.filterMap (fun o => o.price)).length ≤ w →
            series.filterMap (fun o => o.price) ≠ [] →
            movingAvg series w = some ((series.filterMap (fun o => o.price)).sum /
              ((series.filterMap (fun o => o.price)).length : ℚ))) ∧
          (w ≤ (series.filterMap (fun o => o.price)).length →
            movingAvg series w = some
              (((series.filterMap (fun o => o.price)).drop
                  ((series.filterMap (fun o => o.price)).length - w)).sum / (w : ℚ)))) ∧
      movingAvg [⟨0, some 10⟩, ⟨1, none⟩, ⟨2, some 12⟩] 3 = some 11 := by
  constructor
  · intro series w hw
    have hiff : ((series.filterMap (fun o => o.price)).drop
        ((series.filterMap (fun o => o.price)).length - w)).isEmpty = true ↔
        series.filterMap (fun o => o.price) = [] := by
      rw [List.isEmpty_iff, List.drop_eq_nil_iff]
      constructor
      · intro hle
        exact List.length_eq_zero.mp (by omega)
      · intro hnil
        rw [hnil]
        simp
    refine ⟨?_, ?_, ?_⟩
    · simp only [movingAvg]
      by_cases he : ((series.filterMap (fun o => o.price)).drop
          ((series.filterMap (fun o => o.price)).length - w)).isEmpty = true
      · rw [if_pos he]
        exact iff_of_true rfl (hiff.mp he)
      · rw [if_neg he]
        exact iff_of_false (by simp) (fun hnil => he (hiff.mpr hnil))
    · intro hle hne
      simp only [movingAvg]
      have hz : (series.filterMap (fun o => o.price)).length - w = 0 := by omega
      rw [hz, List.drop_zero, if_neg (by rw [List.isEmpty_iff]; exact hne)]
    · intro hge
      simp only [movingAvg]
      have hlen : ((series.filterMap (fun o => o.price)).drop
          ((series.filterMap (fun o => o.price)).length - w)).length = w := by
        rw [List.length_drop]
        omega
      have hne2 : ¬ ((series.filterMap (fun o => o.price)).drop
          ((series.filterMap (fun o => o.price)).length - w)).isEmpty = true := by
        rw [List.isEmpty_iff, ← List.length_eq_zero, hlen]
        omega
      rw [if_neg hne2, hlen]
  · with_unfolding_all decide

/-- Witness for C7: the spec's example `[10, None, 12]` with window 3 has
mean `(10 + 12) / 2 = 11`. -/
theorem movingAvg_spec_witness :
    movingAvg [⟨0, some 10⟩, ⟨1, none⟩, ⟨2, some 12⟩] 3 =
      some (([(10:ℚ), 12].sum) / ((2:ℕ) : ℚ)) := by
  have h := ((movingAvg_spec.1 [⟨0, some 10⟩, ⟨1, none⟩, ⟨2, some 12⟩] 3
    (by decide)).2.1 (by with_unfolding_all decide) (by with_unfolding_all decide))
  exact h.trans (by with_unfolding_all decide)

end BantayPresyo
